import Mathlib

/-!
Verification of the openapigen template renderer (src/main.go).

Go strings are modelled as Lean String (or as List Char where elementwise
recursion is needed, and as List Nat of bytes where Go byte indexing
matters).  Maps are modelled as association lists; the iteration order of a
Go map is arbitrary, so every result that the program derives from a map is
proved independent of that order.  External collaborators (the kin-openapi
parser, the text/template and html/template engines, the strcase library,
the OS) are modelled at their call sites from their documented behaviour;
each such definition says so in its doc comment.
-/

/-! ## Byte-lexicographic string order (Go sort.Strings compares bytes) -/

/-- Lexicographic less-or-equal on character lists, comparing code points.
On ASCII data this is exactly the bytewise order used by sort.Strings. -/
def lexLeB : List Char → List Char → Bool
  | [], _ => true
  | _ :: _, [] => false
  | a :: as, b :: bs =>
    if a.toNat < b.toNat then true
    else if b.toNat < a.toNat then false
    else lexLeB as bs

/-- The order relation sort.Strings sorts by, as a proposition. -/
def strLeP (a b : String) : Prop := lexLeB a.data b.data = true

instance : DecidableRel strLeP := fun _ _ => inferInstanceAs (Decidable (_ = true))

theorem lexLeB_total (a b : List Char) : lexLeB a b = true ∨ lexLeB b a = true := by
  induction a generalizing b with
  | nil => left; rfl
  | cons x xs ih =>
    cases b with
    | nil => right; rfl
    | cons y ys =>
      rcases Nat.lt_trichotomy x.toNat y.toNat with h | h | h
      · left; simp [lexLeB, h]
      · rcases ih ys with h2 | h2
        · left; simp [lexLeB, h, h2]
        · right; simp [lexLeB, h, h2]
      · right; simp [lexLeB, h, Nat.lt_asymm h]

theorem lexLeB_trans (a b c : List Char)
    (hab : lexLeB a b = true) (hbc : lexLeB b c = true) : lexLeB a c = true := by
  induction a generalizing b c with
  | nil => rfl
  | cons x xs ih =>
    cases b with
    | nil => simp [lexLeB] at hab
    | cons y ys =>
      cases c with
      | nil => simp [lexLeB] at hbc
      | cons z zs =>
        rcases Nat.lt_trichotomy x.toNat y.toNat with h1 | h1 | h1
        · rcases Nat.lt_trichotomy y.toNat z.toNat with h2 | h2 | h2
          · simp [lexLeB, Nat.lt_trans h1 h2]
          · simp [lexLeB, h2 ▸ h1]
          · simp [lexLeB, h2, Nat.lt_asymm h2] at hbc
        · rcases Nat.lt_trichotomy y.toNat z.toNat with h2 | h2 | h2
          · simp [lexLeB, h1 ▸ h2]
          · have hxz : x.toNat = z.toNat := h1.trans h2
            have hab2 : lexLeB xs ys = true := by
              simp only [lexLeB] at hab
              rw [h1, if_neg (Nat.lt_irrefl _), if_neg (Nat.lt_irrefl _)] at hab
              exact hab
            have hbc2 : lexLeB ys zs = true := by
              simp only [lexLeB] at hbc
              rw [h2, if_neg (Nat.lt_irrefl _), if_neg (Nat.lt_irrefl _)] at hbc
              exact hbc
            simp only [lexLeB]
            rw [hxz, if_neg (Nat.lt_irrefl _), if_neg (Nat.lt_irrefl _)]
            exact ih ys zs hab2 hbc2
          · simp [lexLeB, h2, Nat.lt_asymm h2] at hbc
        · simp [lexLeB, h1, Nat.lt_asymm h1] at hab

theorem lexLeB_antisymm (a b : List Char)
    (hab : lexLeB a b = true) (hba : lexLeB b a = true) : a = b := by
  induction a generalizing b with
  | nil =>
    cases b with
    | nil => rfl
    | cons y ys => simp [lexLeB] at hba
  | cons x xs ih =>
    cases b with
    | nil => simp [lexLeB] at hab
    | cons y ys =>
      rcases Nat.lt_trichotomy x.toNat y.toNat with h | h | h
      · simp [lexLeB, h, Nat.lt_asymm h] at hba
      · have hx : x = y := Char.ext (UInt32.ext h)
        subst hx
        simp [lexLeB, Nat.lt_irrefl] at hab hba
        exact congrArg (x :: ·) (ih ys hab hba)
      · simp [lexLeB, h, Nat.lt_asymm h] at hab

instance : IsTotal String strLeP := ⟨fun a b => lexLeB_total a.data b.data⟩

instance : IsTrans String strLeP := ⟨fun a b c => lexLeB_trans a.data b.data c.data⟩

instance : IsAntisymm String strLeP :=
  ⟨fun a b hab hba => String.ext (lexLeB_antisymm a.data b.data hab hba)⟩

/-- Model of sort.Strings: a sorted rearrangement in bytewise order. -/
def sortStrings (l : List String) : List String := List.insertionSort strLeP l

theorem sortStrings_sorted (l : List String) : (sortStrings l).Sorted strLeP :=
  List.sorted_insertionSort strLeP l

theorem sortStrings_perm (l : List String) : List.Perm (sortStrings l) l :=
  List.perm_insertionSort strLeP l

/-- Two enumerations of the same multiset sort to the same list: the sorted
result does not depend on the order the elements were produced in. -/
theorem sortStrings_eq_of_perm (l m : List String) (h : List.Perm l m) :
    sortStrings l = sortStrings m :=
  List.eq_of_perm_of_sorted ((sortStrings_perm l).trans (h.trans (sortStrings_perm m).symm))
    (sortStrings_sorted l) (sortStrings_sorted m)

/-! ## Specification model and the uniquePathTags helper (src/main.go lines 131-172) -/

/-- An operation of the canonical model; only its tag list matters here
(openapi3.Operation, field Tags). -/
structure Operation where
  tags : List String
deriving DecidableEq

/-- A path item of the canonical model: zero or one operation per HTTP
method, each a nil-able pointer in Go (openapi3.PathItem). -/
structure PathItem where
  connect : Option Operation
  delete : Option Operation
  get : Option Operation
  head : Option Operation
  options : Option Operation
  patch : Option Operation
  post : Option Operation
  put : Option Operation
  trace : Option Operation
deriving DecidableEq

/-- Tags contributed by one optional operation: nothing when the pointer is
nil, its Tags otherwise (the nil checks of src/main.go lines 134-160). -/
def opTags : Option Operation → List String
  | none => []
  | some op => op.tags

/-- Tags collected from one path item, in the method order of the source:
Connect, Delete, Get, Head, Options, Patch, Post, Put, Trace. -/
def PathItem.collectTags (it : PathItem) : List String :=
  opTags it.connect ++ opTags it.delete ++ opTags it.get ++ opTags it.head ++
    opTags it.options ++ opTags it.patch ++ opTags it.post ++ opTags it.put ++
    opTags it.trace

/-- Model of the uniquePathTags template helper (src/main.go lines 131-172):
append every tag of every non-nil operation over all paths, deduplicate
through a map, collect the keys and sort them with sort.Strings.  The Paths
map is modelled as a list of path items in some iteration order; the
map-based deduplication is modelled by List.dedup (the final sort makes any
deduplication order give the same value, which is proved below). -/
def uniquePathTags (paths : List PathItem) : List String :=
  sortStrings (paths.flatMap PathItem.collectTags).dedup

/-! ## The firstLetter helper (src/main.go lines 108-113) -/

/-- UTF-8 encoding of a Unicode code point, as the Go conversion
string(r) of an integer r produces it. -/
def utf8EncodeChar (n : Nat) : List Nat :=
  if n < 0x80 then [n]
  else if n < 0x800 then [0xC0 + n / 0x40, 0x80 + n % 0x40]
  else if n < 0x10000 then
    [0xE0 + n / 0x1000, 0x80 + (n / 0x40) % 0x40, 0x80 + n % 0x40]
  else
    [0xF0 + n / 0x40000, 0x80 + (n / 0x1000) % 0x40, 0x80 + (n / 0x40) % 0x40,
      0x80 + n % 0x40]

/-- The UTF-8 byte sequence of a character sequence: how Go stores a string. -/
def utf8Bytes (s : List Char) : List Nat := s.flatMap (fun c => utf8EncodeChar c.toNat)

/-- Model of the firstLetter helper (src/main.go lines 108-113) on the byte
representation of a Go string: an empty string gives the empty string;
otherwise the result is string(s[0]), and since s[0] is the first BYTE and
converting an integer to string encodes it as a code point, the result is
the UTF-8 encoding of the value of the first byte. -/
def firstLetter (s : List Nat) : List Nat :=
  match s with
  | [] => []
  | b :: _ => utf8EncodeChar b

/-! ## The stripDefinitionPrefix helper (src/main.go lines 118-120) -/

/-- Model of strings.HasPrefix on character lists. -/
def hasPref : List Char → List Char → Bool
  | _, [] => true
  | [], _ :: _ => false
  | c :: s, p :: ps => c == p && hasPref s ps

/-- Model of strings.TrimPrefix: drop the leading occurrence when present,
otherwise return the input unchanged. -/
def trimPref (s pre : List Char) : List Char :=
  if hasPref s pre then s.drop pre.length else s

/-- Model of the stripDefinitionPrefix helper (src/main.go lines 118-120),
Go name stripDefinitionPrefix: strings.TrimPrefix(s, "#/definitions/"). -/
def stripDefinitionPref (s : List Char) : List Char :=
  trimPref s "#/definitions/".data

theorem hasPref_append (p t : List Char) : hasPref (p ++ t) p = true := by
  induction p with
  | nil => simp [hasPref]
  | cons c cs ih => simp [hasPref, ih]

theorem trimPref_append (p t : List Char) : trimPref (p ++ t) p = t := by
  simp [trimPref, hasPref_append, List.drop_left]

/-! ## Normalization stage of main (src/main.go lines 58-69) -/

/-- A Go pointer to the canonical v3 document: nil or a parsed document.
The document type itself is abstract. -/
inductive SwaggerPtr (V3 : Type) where
  | nilPtr : SwaggerPtr V3
  | valid : V3 → SwaggerPtr V3
deriving DecidableEq

/-- Fatal outcomes of the decode stage, mirroring the two log.Fatal calls of
src/main.go lines 63 and 67. -/
inductive DecodeFatal where
  | cannotParseV2 : String → DecodeFatal
  | cannotConvert : String → DecodeFatal
deriving DecidableEq

/-- Model of the decode stage of main (src/main.go lines 58-69).  The
variable swagger is declared as a nil pointer (line 58); when isOpenAPIV2
is set, the input is decoded as a v2 document and converted to v3, each
failure being fatal; when it is NOT set, no branch runs at all, so the
pointer stays nil.  The external kin-openapi decoder and converter are the
parameters parseV2 and conv. -/
def decodeSpec {Input V2 V3 : Type} (isOpenAPIV2 : Bool)
    (parseV2 : Input → Except String V2) (conv : V2 → Except String V3)
    (input : Input) : Except DecodeFatal (SwaggerPtr V3) :=
  if isOpenAPIV2 then
    match parseV2 input with
    | .error e => .error (.cannotParseV2 e)
    | .ok v2 =>
      match conv v2 with
      | .error e => .error (.cannotConvert e)
      | .ok v3 => .ok (.valid v3)
  else .ok .nilPtr

/-! ## Render-mode options (src/main.go lines 174-185) -/

/-- Option string passed to the text/template engine (src/main.go line 181). -/
def textModeOption : String := "missingkey=zero"

/-- Option string passed to the html/template engine (src/main.go line 176). -/
def htmlModeOption : String := "missingkey=zero"

/-- The missingkey policies of the template engines, from the documented
Option values of the black-box evaluator: default (invalid value printed),
zero (the zero value of the element type), error (execution stops). -/
inductive MissingKeyPolicy where
  | policyDefault : MissingKeyPolicy
  | zeroValue : MissingKeyPolicy
  | errorOnMissing : MissingKeyPolicy
deriving DecidableEq

/-- Decoding of an engine option string, modelled from the documented
behaviour of the black-box template engines. -/
def parseEngineOption (o : String) : MissingKeyPolicy :=
  if o = "missingkey=zero" then .zeroValue
  else if o = "missingkey=error" then .errorOnMissing
  else .policyDefault

/-- Evaluation of one field reference against string-valued model data,
modelled from the documented missingkey semantics of the black-box template
engines (identical in text and html mode): a present field renders its
value; an absent one renders according to the configured policy, the zero
value of a string field being the empty string. -/
def renderFieldRef (pol : MissingKeyPolicy) (model : List (String × String))
    (field : String) : Except String String :=
  match model.lookup field with
  | some v => .ok v
  | none =>
    match pol with
    | .zeroValue => .ok ""
    | .policyDefault => .ok "<no value>"
    | .errorOnMissing => .error ("map has no entry for key " ++ field)

/-! ## Path arithmetic (package path/filepath, as used in src/main.go lines 92 and 186-192) -/

/-- Characters of a path split at every slash (empty components kept, as
strings.Split does inside filepath). -/
def splitOnSlash : List Char → List (List Char)
  | [] => [[]]
  | c :: rest =>
    match splitOnSlash rest with
    | [] => [[]]
    | w :: ws => if c = '/' then [] :: w :: ws else (c :: w) :: ws

/-- One step of the component normalization of filepath.Clean: empty and
dot components vanish, dotdot pops the previous component (or is kept at
the front of a relative path, or vanishes at the root of an absolute one).
The accumulator holds the output components in reverse. -/
def cleanStep (rooted : Bool) (acc : List (List Char)) (c : List Char) : List (List Char) :=
  if c = [] ∨ c = ['.'] then acc
  else if c = ['.', '.'] then
    match acc with
    | [] => if rooted then [] else [c]
    | a :: rest => if a = ['.', '.'] then c :: a :: rest else rest
  else c :: acc

/-- Components joined back with slashes. -/
def joinSlash : List (List Char) → List Char
  | [] => []
  | [w] => w
  | w :: ws => w ++ '/' :: joinSlash ws

/-- Model of filepath.Clean on character lists. -/
def goCleanB (s : List Char) : List Char :=
  if s = [] then ['.']
  else
    let rooted := s.head? = some '/'
    let comps := ((splitOnSlash s).foldl (cleanStep rooted) []).reverse
    if comps = [] then (if rooted then ['/'] else ['.'])
    else (if rooted then ['/'] else []) ++ joinSlash comps

/-- Model of filepath.Join on two elements: skip leading empty elements,
join with a slash, clean. -/
def goJoin2B (a b : List Char) : List Char :=
  if a ≠ [] then goCleanB (a ++ '/' :: b)
  else if b ≠ [] then goCleanB b
  else []

/-- Trailing slashes removed (helper of filepath.Base). -/
def dropTrailingSlashes (s : List Char) : List Char :=
  (s.reverse.dropWhile (fun c => c == '/')).reverse

/-- Model of filepath.Base: the last element of the path, with trailing
slashes removed first; a slash for the root, a dot for the empty path. -/
def goBaseB (s : List Char) : List Char :=
  if s = [] then ['.']
  else
    let t := dropTrailingSlashes s
    if t = [] then ['/']
    else (t.reverse.takeWhile (fun c => c ≠ '/')).reverse

/-- Everything up to and including the final slash (helper of filepath.Dir,
whose Split keeps the separator on the directory part). -/
def upToLastSlash (s : List Char) : List Char :=
  (s.reverse.dropWhile (fun c => c ≠ '/')).reverse

/-- Model of filepath.Dir: the directory part of the split, cleaned. -/
def goDirB (s : List Char) : List Char := goCleanB (upToLastSlash s)

/-- Model of strings.TrimSuffix via the reversed lists. -/
def trimSuf (s suf : List Char) : List Char :=
  if hasPref s.reverse suf.reverse then s.take (s.length - suf.length) else s

/-- Model of filepath.Ext: the suffix of the final element starting at its
last dot, empty when the final element has no dot.  The scan walks the
path backwards and stops at the first slash. -/
def goExtB (s : List Char) : List Char :=
  goExtAux s.reverse []
where
  /-- Backward scan of filepath.Ext collecting the candidate extension. -/
  goExtAux : List Char → List Char → List Char
    | [], _ => []
    | c :: rest, acc =>
      if c = '/' then []
      else if c = '.' then c :: acc
      else goExtAux rest (c :: acc)

/-- Model of the output-file path computed at src/main.go lines 186 and 192:
dir := filepath.Dir(filepath.Join(outputDir, strings.TrimPrefix(path, templateDir)))
and the created file is strings.TrimSuffix(filepath.Join(dir, filepath.Base(path)), ".tpl"). -/
def outputPathB (templateDir outputDir path : List Char) : List Char :=
  let dir := goDirB (goJoin2B outputDir (trimPref path templateDir))
  trimSuf (goJoin2B dir (goBaseB path)) ".tpl".data

/-- String wrapper of outputPathB. -/
def outputPath (templateDir outputDir path : String) : String :=
  String.mk (outputPathB templateDir.data outputDir.data path.data)

example : outputPath "/root" "/out" "/root/a.tpl" = "/out/a" := by decide
example : outputPath "/root" "/out" "/root/sub/b.tpl" = "/out/sub/b" := by decide
example : outputPath "/root" "/out" "/root/a.tpl.tpl" = "/out/a.tpl" := by decide
example : goExtB "/root/sub/b.tpl".data = ".tpl".data := by decide
example : goExtB "/root/sub".data = [] := by decide
example : goExtB "/root/x.tpl/file".data = [] := by decide

/-! ## The template tree walk (src/main.go lines 91-204) -/

deriving instance DecidableEq for Except

/-- Outcomes of the external calls made while processing one discovered
file, one field per call site in the walk callback.  Error strings are the
messages of the external black boxes (OS, template engine) that the
callback wraps with fmt.Errorf. -/
structure FileFate where
  relRes : Except String Unit
  readRes : Except String String
  parseRes : Except String Unit
  dirMissing : Bool
  mkdirRes : Except String Unit
  createRes : Except String Unit
  renderRes : Except String Unit
deriving DecidableEq

/-- A fate in which every external call succeeds. -/
def FileFate.allOk : FileFate :=
  ⟨.ok (), .ok "", .ok (), false, .ok (), .ok (), .ok ()⟩

/-- One node visited by filepath.Walk: its full path, whether it is a
directory, and the fates of the external calls made if it is processed. -/
structure Entry where
  path : String
  isDir : Bool
  fate : FileFate
deriving DecidableEq

/-- The errors the walk callback can return, one constructor per
fmt.Errorf in src/main.go lines 95-199, holding exactly the data the
format string interpolates. -/
inductive WalkError where
  | cannotRelPath : String → String → WalkError
  | cannotLoadTemplate : String → WalkError
  | cannotParseHTMLMode : String → WalkError
  | cannotParseTextMode : String → WalkError
  | cannotCreateDir : String → String → WalkError
  | cannotCreateOutput : String → WalkError
  | cannotRenderOutput : String → WalkError
deriving DecidableEq

/-- Observable filesystem effects of the walk: a template being read, an
output file being created (os.Create truncates or creates it), an output
file being fully rendered. -/
inductive Event where
  | readTemplate : String → Event
  | createdOutput : String → Event
  | renderedOutput : String → Event
deriving DecidableEq

/-- What the walk callback tells filepath.Walk: keep going (a nil return),
skip the directory (filepath.SkipDir, which this program never returns),
or abort the walk with an error. -/
inductive Signal where
  | continueWalk : Signal
  | skipDirectory : Signal
  | fail : WalkError → Signal
deriving DecidableEq

/-- Model of the walk callback (src/main.go lines 91-200): skip every node
whose extension is not ".tpl" and every directory; otherwise compute the
relative path, read the template, parse it with the mode given by the html
flag, create the output directory when missing, create the output file and
render into it.  The first failing step aborts with the wrapped error of
that step; the returned events are the effects that happened before the
failure. -/
def walkFn (templateDir outputDir : String) (isHTML : Bool) (e : Entry) :
    List Event × Signal :=
  if ¬ goExtB e.path.data = ".tpl".data ∨ (goExtB e.path.data = ".tpl".data ∧ e.isDir) then
    ([], .continueWalk)
  else
    match e.fate.relRes with
    | .error i => ([], .fail (.cannotRelPath e.path i))
    | .ok _ =>
      match e.fate.readRes with
      | .error i => ([], .fail (.cannotLoadTemplate i))
      | .ok _ =>
        let parsed : Except WalkError Unit :=
          if isHTML then
            match e.fate.parseRes with
            | .error i => .error (.cannotParseHTMLMode i)
            | .ok _ => .ok ()
          else
            match e.fate.parseRes with
            | .error i => .error (.cannotParseTextMode i)
            | .ok _ => .ok ()
        match parsed with
        | .error err => ([.readTemplate e.path], .fail err)
        | .ok _ =>
          let dir := goDirB (goJoin2B outputDir.data (trimPref e.path.data templateDir.data))
          match (if e.fate.dirMissing then e.fate.mkdirRes else .ok ()) with
          | .error i => ([.readTemplate e.path], .fail (.cannotCreateDir (String.mk dir) i))
          | .ok _ =>
            let outPath := String.mk (trimSuf (goJoin2B dir (goBaseB e.path.data)) ".tpl".data)
            match e.fate.createRes with
            | .error i => ([.readTemplate e.path], .fail (.cannotCreateOutput i))
            | .ok _ =>
              match e.fate.renderRes with
              | .error i =>
                ([.readTemplate e.path, .createdOutput outPath], .fail (.cannotRenderOutput i))
              | .ok _ =>
                ([.readTemplate e.path, .createdOutput outPath, .renderedOutput outPath],
                  .continueWalk)

/-- Whether p lies strictly below directory d. -/
def isUnderB (d p : List Char) : Bool := hasPref p (d ++ ['/'])

/-- Model of filepath.Walk over the pre-order list of visited nodes: the
first argument remembers a directory being skipped (only reachable through
the skipDirectory signal, which this callback never emits); a callback
error aborts the whole walk and becomes its result. -/
def runWalkAux (templateDir outputDir : String) (isHTML : Bool) :
    Option String → List Entry → List Event × Option WalkError
  | _, [] => ([], none)
  | skip?, e :: rest =>
    if (match skip? with | some d => isUnderB d.data e.path.data | none => false) then
      runWalkAux templateDir outputDir isHTML skip? rest
    else
      match walkFn templateDir outputDir isHTML e with
      | (evs, .continueWalk) =>
        let r := runWalkAux templateDir outputDir isHTML none rest
        (evs ++ r.1, r.2)
      | (evs, .fail err) => (evs, some err)
      | (evs, .skipDirectory) =>
        let r := runWalkAux templateDir outputDir isHTML (some e.path) rest
        (evs ++ r.1, r.2)

/-- The whole walk of src/main.go line 91, starting with nothing skipped. -/
def runWalk (templateDir outputDir : String) (isHTML : Bool) (entries : List Entry) :
    List Event × Option WalkError :=
  runWalkAux templateDir outputDir isHTML none entries

/-- The diagnostic text of a walk error, following the fmt.Errorf format
strings of src/main.go and the documented error texts of the wrapped
black boxes where they appear. -/
def errorMessage : WalkError → String
  | .cannotRelPath p i => "cannot calculate relative directory for " ++ p ++ ": " ++ i
  | .cannotLoadTemplate i => "cannot load template: " ++ i
  | .cannotParseHTMLMode i => "cannot parse template (html mode): " ++ i
  | .cannotParseTextMode i => "cannot parse template (text mode): " ++ i
  | .cannotCreateDir d i => "cannot create directory " ++ d ++ ": " ++ i
  | .cannotCreateOutput i => "cannot create output file: " ++ i
  | .cannotRenderOutput i => "cannot render output: " ++ i

/-- The single line printed by log.Fatal at src/main.go line 203. -/
def fatalMessage (e : WalkError) : String :=
  "cannot iterate through template files:" ++ errorMessage e

/-- Substring test on character lists. -/
def containsSub (needle : List Char) : List Char → Bool
  | [] => needle.isEmpty
  | c :: rest => hasPref (c :: rest) needle || containsSub needle rest

/-- Output paths that were fully rendered during the walk. -/
def renderedPaths (evs : List Event) : List String :=
  evs.filterMap (fun ev =>
    match ev with
    | .renderedOutput p => some p
    | _ => none)

/-- Suffix test on strings via the reversed character lists. -/
def hasSufB (s suf : String) : Bool := hasPref s.data.reverse suf.data.reverse

/-- Visited nodes of the walk over the template tree of the C4 example:
root/a.tpl and root/sub/b.tpl under template root /root. -/
def c4Entries : List Entry :=
  [⟨"/root", true, .allOk⟩,
    ⟨"/root/a.tpl", false, .allOk⟩,
    ⟨"/root/sub", true, .allOk⟩,
    ⟨"/root/sub/b.tpl", false, .allOk⟩]

example :
    runWalk "/root" "/out" false c4Entries =
      ([.readTemplate "/root/a.tpl", .createdOutput "/out/a", .renderedOutput "/out/a",
        .readTemplate "/root/sub/b.tpl", .createdOutput "/out/sub/b",
        .renderedOutput "/out/sub/b"], none) := by decide

/-- A fate whose template-parse step fails, with the documented error text
the engine produces for an unclosed action in a template named openapigen. -/
def parseFailFate : FileFate :=
  ⟨.ok (), .ok "", .error "template: openapigen:1: unclosed action", false, .ok (), .ok (),
    .ok ()⟩

/-- Visited nodes of the C3 counterexample: a good template, then one whose
parse fails, then one that would succeed. -/
def c3Entries : List Entry :=
  [⟨"/t", true, .allOk⟩,
    ⟨"/t/good.tpl", false, .allOk⟩,
    ⟨"/t/bad.tpl", false, parseFailFate⟩,
    ⟨"/t/later.tpl", false, .allOk⟩]

example :
    runWalk "/t" "/out" false c3Entries =
      ([.readTemplate "/t/good.tpl", .createdOutput "/out/good", .renderedOutput "/out/good",
        .readTemplate "/t/bad.tpl"],
        some (.cannotParseTextMode "template: openapigen:1: unclosed action")) := by decide

example :
    containsSub "/t/bad.tpl".data
      (fatalMessage (.cannotParseTextMode "template: openapigen:1: unclosed action")).data
      = false := by decide

/-- Visited nodes of the C10 example: a directory whose own name carries the
template suffix, containing a template file. -/
def c10Entries : List Entry :=
  [⟨"/t", true, .allOk⟩,
    ⟨"/t/box.tpl", true, .allOk⟩,
    ⟨"/t/box.tpl/inner.tpl", false, .allOk⟩]

example :
    runWalk "/t" "/out" false c10Entries =
      ([.readTemplate "/t/box.tpl/inner.tpl", .createdOutput "/out/box.tpl/inner",
        .renderedOutput "/out/box.tpl/inner"], none) := by decide

/-! ## Claim C1 -/

/-- Claim C1 evaluation: when the v2 flag is NOT set, the decode stage of
main (src/main.go lines 58-69) never parses the input at all: for every
input and every behaviour of the external parser and converter it returns
the nil pointer, and never a parsed document.  This is the value line 197
hands to every template render, so the claim that the input is parsed as
the canonical model (with MalformedInput on failure) does not hold of the
code: the code is missing the non-legacy parse branch. -/
theorem c1_v3InputNeverParsed :
    ∀ {Input V2 V3 : Type} (parseV2 : Input → Except String V2)
      (conv : V2 → Except String V3) (input : Input),
      decodeSpec false parseV2 conv input = .ok .nilPtr
      ∧ ∀ doc : V3, decodeSpec false parseV2 conv input ≠ .ok (.valid doc) := by
  intro Input V2 V3 parseV2 conv input
  refine ⟨rfl, fun doc h => ?_⟩
  simp [decodeSpec] at h

/-! ## Claim C2 -/

/-- A path item whose GET operation is tagged b then a. -/
def itemTaggedBA : PathItem :=
  ⟨none, none, some ⟨["b", "a"]⟩, none, none, none, none, none, none⟩

/-- A path item whose POST operation is tagged a. -/
def itemTaggedA : PathItem :=
  ⟨none, none, none, none, none, none, some ⟨["a"]⟩, none, none⟩

/-- A path item with no operations at all. -/
def itemUntagged : PathItem :=
  ⟨none, none, none, none, none, none, none, none, none⟩

/-- Claim C2: uniquePathTags returns the bytewise-lexicographically sorted
deduplication of the union of the tag lists of every non-absent operation
across every path: the result is sorted and duplicate-free, its members are
exactly the tags occurring in some path item, the result is invariant under
reordering of the path list (Go map iteration order), any enumeration order
of the deduplicated tag set sorts to the same answer, and the concrete
model with operations tagged b-a, a, and nothing yields exactly a, b. -/
theorem c2_uniquePathTags :
    (∀ paths : List PathItem,
        (uniquePathTags paths).Sorted strLeP ∧ (uniquePathTags paths).Nodup ∧
          ∀ t, t ∈ uniquePathTags paths ↔ ∃ it ∈ paths, t ∈ it.collectTags)
    ∧ (∀ paths paths2 : List PathItem, List.Perm paths paths2 →
        uniquePathTags paths = uniquePathTags paths2)
    ∧ (∀ (paths : List PathItem) (l : List String),
        List.Perm l (paths.flatMap PathItem.collectTags).dedup →
          sortStrings l = uniquePathTags paths)
    ∧ uniquePathTags [itemTaggedBA, itemTaggedA, itemUntagged] = ["a", "b"] := by
  refine ⟨fun paths => ⟨sortStrings_sorted _, ?_, fun t => ?_⟩, fun paths paths2 h => ?_,
    fun paths l h => ?_, by decide⟩
  · exact (sortStrings_perm _).nodup_iff.mpr (List.nodup_dedup _)
  · exact ((sortStrings_perm _).mem_iff.trans List.mem_dedup).trans List.mem_flatMap
  · exact sortStrings_eq_of_perm _ _ ((h.flatMap_right PathItem.collectTags).dedup)
  · exact sortStrings_eq_of_perm _ _ h

/-- Witness for C2: the theorem applied at a concrete reordered pair of
path lists and at a concrete enumeration of the tag set. -/
theorem c2_uniquePathTags_witness :
    uniquePathTags [itemTaggedBA, itemTaggedA, itemUntagged]
        = uniquePathTags [itemTaggedA, itemUntagged, itemTaggedBA]
    ∧ sortStrings ["a", "b"] = uniquePathTags [itemTaggedBA, itemTaggedA, itemUntagged] :=
  ⟨c2_uniquePathTags.2.1 _ _ (by decide),
    c2_uniquePathTags.2.2.1 [itemTaggedBA, itemTaggedA, itemUntagged] ["a", "b"] (by decide)⟩

/-! ## Claim C4 -/

/-- Claim C4: the output-path mapping of src/main.go lines 186-192 is the
pure function outputPath of (template root, output root, discovered path):
it preserves the relative position under the template root, re-roots it
under the output root and strips the template suffix; on the spec example
tree (root/a.tpl, root/sub/b.tpl, output root /out) a fully successful walk
renders exactly /out/a and /out/sub/b and no rendered output path carries
the template suffix. -/
theorem c4_outputPathMapping :
    outputPath "/root" "/out" "/root/a.tpl" = "/out/a"
    ∧ outputPath "/root" "/out" "/root/sub/b.tpl" = "/out/sub/b"
    ∧ (runWalk "/root" "/out" false c4Entries).2 = none
    ∧ renderedPaths (runWalk "/root" "/out" false c4Entries).1 = ["/out/a", "/out/sub/b"]
    ∧ (renderedPaths (runWalk "/root" "/out" false c4Entries).1).all
        (fun p => !hasSufB p ".tpl") = true := by
  decide

/-! ## Claim C5 -/

/-- Claim C5: both render modes are configured with the missingkey=zero
option (src/main.go lines 176 and 181), so a template reference to a field
absent from the model renders as the zero value, the empty string, and is
not a render error, in text mode and in html mode alike. -/
theorem c5_missingFieldRendersZero :
    ∀ (model : List (String × String)) (field : String),
      model.lookup field = none →
      renderFieldRef (parseEngineOption textModeOption) model field = .ok ""
      ∧ renderFieldRef (parseEngineOption htmlModeOption) model field = .ok "" := by
  intro model field h
  constructor <;> simp [renderFieldRef, parseEngineOption, textModeOption, htmlModeOption, h]

/-- Witness for C5: a concrete model lacking a description field. -/
theorem c5_missingFieldRendersZero_witness :
    renderFieldRef (parseEngineOption textModeOption) [("title", "x")] "description" = .ok ""
    ∧ renderFieldRef (parseEngineOption htmlModeOption) [("title", "x")] "description"
        = .ok "" :=
  c5_missingFieldRendersZero [("title", "x")] "description" (by decide)

/-! ## Claim C6 -/

/-- Claim C6 counterexample: firstLetter does NOT return the first
character of every string.  On the one-character string é (code point
0xE9, stored as the two bytes 0xC3 0xA9) the helper returns string(s[0]),
the UTF-8 encoding of the byte value 0xC3, which is the two bytes 0xC3
0x83 (the character Ã), not the first character é. -/
theorem c6_counterexample :
    ¬ firstLetter (utf8Bytes ['é']) = utf8Bytes (['é'].take 1) := by decide

/-- Claim C6 as amended: firstLetter returns the empty string on the empty
string, returns the first character whenever that character is ASCII, and
in general returns the UTF-8 encoding of the value of the first byte. -/
theorem c6_firstByteSemantics :
    firstLetter (utf8Bytes []) = utf8Bytes (([] : List Char).take 1)
    ∧ (∀ (c : Char) (rest : List Char), c.toNat < 0x80 →
        firstLetter (utf8Bytes (c :: rest)) = utf8Bytes ((c :: rest).take 1))
    ∧ ∀ (b : Nat) (s : List Nat), firstLetter (b :: s) = utf8EncodeChar b := by
  refine ⟨rfl, fun c rest h => ?_, fun b s => rfl⟩
  simp [utf8Bytes, firstLetter, utf8EncodeChar, h]

/-- Witness for C6: the amended theorem applied at the ASCII string a. -/
theorem c6_firstByteSemantics_witness :
    firstLetter (utf8Bytes ['a']) = utf8Bytes (['a'].take 1) :=
  c6_firstByteSemantics.2.1 'a' [] (by decide)

/-! ## Claim C7 -/

/-- Claim C7: stripDefinitionPrefix removes the fixed prefix
"#/definitions/" when present and returns the input unchanged otherwise;
in particular it maps "#/definitions/Widget" to "Widget" and leaves
"Widget" alone. -/
theorem c7_stripDefinitionPref :
    stripDefinitionPref "#/definitions/Widget".data = "Widget".data
    ∧ stripDefinitionPref "Widget".data = "Widget".data
    ∧ (∀ t : List Char, stripDefinitionPref ("#/definitions/".data ++ t) = t)
    ∧ ∀ s : List Char, hasPref s "#/definitions/".data = false →
        stripDefinitionPref s = s := by
  refine ⟨by decide, by decide, fun t => trimPref_append _ t, fun s h => ?_⟩
  simp [stripDefinitionPref, trimPref, h]

/-- Witness for C7: the prefix-absent case applied at a concrete string. -/
theorem c7_stripDefinitionPref_witness :
    stripDefinitionPref "Widget/x".data = "Widget/x".data :=
  c7_stripDefinitionPref.2.2.2 "Widget/x".data (by decide)

/-! ## Claim C9 -/

theorem trimSuf_append (s suf : List Char) : trimSuf (s ++ suf) suf = s := by
  have h : hasPref (s ++ suf).reverse suf.reverse = true := by
    rw [List.reverse_append]
    exact hasPref_append _ _
  simp only [trimSuf, h, if_pos, List.length_append, Nat.add_sub_cancel]
  exact List.take_left s suf

/-- Claim C9: strings.TrimSuffix strips only one trailing occurrence of the
template suffix, so a discovered file named a.tpl.tpl produces the output
name a.tpl, and an output under the output root can itself carry the
template suffix; in general appending ".tpl.tpl" to any name and trimming
leaves one ".tpl" behind. -/
theorem c9_singleSuffixStripped :
    outputPath "/root" "/out" "/root/a.tpl.tpl" = "/out/a.tpl"
    ∧ hasSufB (outputPath "/root" "/out" "/root/a.tpl.tpl") ".tpl" = true
    ∧ ∀ base : List Char,
        trimSuf (base ++ ".tpl.tpl".data) ".tpl".data = base ++ ".tpl".data := by
  refine ⟨by decide, by decide, fun base => ?_⟩
  have h : base ++ ".tpl.tpl".data = (base ++ ".tpl".data) ++ ".tpl".data := by
    simp [List.append_assoc]
  rw [h, trimSuf_append]

/-! ## Claim C10 -/

/-- Claim C10: the template-suffix skip is not recursive.  The walk
callback answers a plain continue (a nil return, never filepath.SkipDir)
for EVERY directory, including one whose name ends in ".tpl", so the walk
keeps descending into it; concretely, the tree /t/box.tpl/inner.tpl renders
the inner template to /out/box.tpl/inner while the directory itself causes
no read, no output and no error. -/
theorem c10_tplDirectoryNotPruned :
    (∀ (templateDir outputDir : String) (isHTML : Bool) (e : Entry),
        e.isDir = true →
          walkFn templateDir outputDir isHTML e = ([], .continueWalk))
    ∧ runWalk "/t" "/out" false c10Entries =
        ([.readTemplate "/t/box.tpl/inner.tpl", .createdOutput "/out/box.tpl/inner",
          .renderedOutput "/out/box.tpl/inner"], none) := by
  refine ⟨fun templateDir outputDir isHTML e h => ?_, by decide⟩
  by_cases hx : goExtB e.path.data = ".tpl".data <;> simp [walkFn, hx, h]

/-- Witness for C10: the callback applied to the concrete directory entry
whose name carries the template suffix. -/
theorem c10_tplDirectoryNotPruned_witness :
    walkFn "/t" "/out" false ⟨"/t/box.tpl", true, .allOk⟩ = ([], .continueWalk) :=
  c10_tplDirectoryNotPruned.1 "/t" "/out" false ⟨"/t/box.tpl", true, .allOk⟩ rfl

/-! ## Claim C3 -/

theorem runWalkAux_cons_continue (templateDir outputDir : String) (isHTML : Bool)
    (e : Entry) (rest : List Entry)
    (he : (walkFn templateDir outputDir isHTML e).2 = .continueWalk) :
    runWalkAux templateDir outputDir isHTML none (e :: rest)
      = ((walkFn templateDir outputDir isHTML e).1
          ++ (runWalkAux templateDir outputDir isHTML none rest).1,
          (runWalkAux templateDir outputDir isHTML none rest).2) := by
  have heq : walkFn templateDir outputDir isHTML e
      = ((walkFn templateDir outputDir isHTML e).1, .continueWalk) := by
    rw [← he]
  rw [runWalkAux, if_neg (by simp), heq]

theorem runWalkAux_cons_fail (templateDir outputDir : String) (isHTML : Bool)
    (e : Entry) (rest : List Entry) (err : WalkError)
    (he : (walkFn templateDir outputDir isHTML e).2 = .fail err) :
    runWalkAux templateDir outputDir isHTML none (e :: rest)
      = ((walkFn templateDir outputDir isHTML e).1, some err) := by
  have heq : walkFn templateDir outputDir isHTML e
      = ((walkFn templateDir outputDir isHTML e).1, .fail err) := by
    rw [← he]
  rw [runWalkAux, if_neg (by simp), heq]

/-- Claim C3 as amended: the walk is fail-fast.  If every entry before f
lets the walk continue (it is skipped or processed successfully) and
processing f fails with err, then the whole run over pre ++ f :: post
produces exactly the events of pre followed by the partial events of f --
so no entry after f is read, parsed or written, and the outputs already
written for pre are retained, with no rollback -- and the run aborts with
the error of the first failing step of f, which main prints as
fatalMessage err. -/
theorem c3_failFast (templateDir outputDir : String) (isHTML : Bool)
    (pre post : List Entry) (f : Entry) (err : WalkError)
    (hpre : ∀ g ∈ pre, (walkFn templateDir outputDir isHTML g).2 = .continueWalk)
    (hf : (walkFn templateDir outputDir isHTML f).2 = .fail err) :
    runWalk templateDir outputDir isHTML (pre ++ f :: post)
      = ((runWalk templateDir outputDir isHTML pre).1
          ++ (walkFn templateDir outputDir isHTML f).1, some err) := by
  induction pre with
  | nil =>
    simpa [runWalk, runWalkAux] using
      runWalkAux_cons_fail templateDir outputDir isHTML f post err hf
  | cons g pre ih =>
    have hg := hpre g (List.mem_cons_self g pre)
    have hrest : ∀ g2 ∈ pre, (walkFn templateDir outputDir isHTML g2).2 = .continueWalk :=
      fun g2 hmem => hpre g2 (List.mem_cons_of_mem g hmem)
    have h1 := runWalkAux_cons_continue templateDir outputDir isHTML g
      (pre ++ f :: post) hg
    have h2 := runWalkAux_cons_continue templateDir outputDir isHTML g pre hg
    simp only [runWalk] at ih ⊢
    rw [List.cons_append, h1, ih hrest, h2]
    simp [List.append_assoc]

/-- Witness for C3: the amended theorem applied at the concrete entry list
of the counterexample run (a good template, a parse failure, a later
template). -/
theorem c3_failFast_witness :
    runWalk "/t" "/out" false
        ([⟨"/t", true, .allOk⟩, ⟨"/t/good.tpl", false, .allOk⟩]
          ++ ⟨"/t/bad.tpl", false, parseFailFate⟩ :: [⟨"/t/later.tpl", false, .allOk⟩])
      = ((runWalk "/t" "/out" false
            [⟨"/t", true, .allOk⟩, ⟨"/t/good.tpl", false, .allOk⟩]).1
          ++ (walkFn "/t" "/out" false ⟨"/t/bad.tpl", false, parseFailFate⟩).1,
          some (.cannotParseTextMode "template: openapigen:1: unclosed action")) :=
  c3_failFast "/t" "/out" false
    [⟨"/t", true, .allOk⟩, ⟨"/t/good.tpl", false, .allOk⟩]
    [⟨"/t/later.tpl", false, .allOk⟩]
    ⟨"/t/bad.tpl", false, parseFailFate⟩
    (.cannotParseTextMode "template: openapigen:1: unclosed action")
    (by decide) (by decide)

/-- Claim C3 counterexample: on the concrete run where /t/bad.tpl fails to
parse, the walk does stop at the first error -- the later template is never
read and the outputs already written for /t/good.tpl remain -- but the
diagnostic the run exits with does NOT name the failing file: the engine
parse error names the fixed template name openapigen, and no wrapping adds
the path, so the claim that the run exits with a diagnostic naming the
failing file's path is false at this input. -/
theorem c3_counterexample :
    (runWalk "/t" "/out" false c3Entries).2
        = some (.cannotParseTextMode "template: openapigen:1: unclosed action")
    ∧ (runWalk "/t" "/out" false c3Entries).1
        = [.readTemplate "/t/good.tpl", .createdOutput "/out/good",
            .renderedOutput "/out/good", .readTemplate "/t/bad.tpl"]
    ∧ containsSub "/t/bad.tpl".data
        (fatalMessage (.cannotParseTextMode "template: openapigen:1: unclosed action")).data
        = false := by
  refine ⟨by decide, by decide, by decide⟩

/-! ## Case-conversion helpers (src/main.go lines 115-117)

The helper table binds camel, lowerCamel and snake to ToCamel, ToLowerCamel
and ToSnake of the external strcase dependency, whose code is not part of
this repository.  The definitions below are modelled from the spec's helper
table (camelCase converts delimiter/space-separated words to UpperCamelCase,
lowerCamelCase the same with the first letter lowercased, snakeCase converts
to lower_snake_case, with acronyms treated as words), realized by the
algorithm of the vendored library: a regular-expression pass that puts word
boundaries around digit runs that follow a letter, a trim of surrounding
spaces, and one linear pass.  ASCII case arithmetic suffices because the
claims quantify over alphanumeric identifiers. -/

/-- ASCII uppercase letter test. -/
def isUpperA (c : Char) : Bool := 65 ≤ c.toNat && c.toNat ≤ 90

/-- ASCII lowercase letter test. -/
def isLowerA (c : Char) : Bool := 97 ≤ c.toNat && c.toNat ≤ 122

/-- ASCII digit test. -/
def isDigitA (c : Char) : Bool := 48 ≤ c.toNat && c.toNat ≤ 57

/-- ASCII letter test. -/
def isLetterA (c : Char) : Bool := isUpperA c || isLowerA c

/-- ASCII lowercasing of one character. -/
def toLowerA (c : Char) : Char := if isUpperA c then Char.ofNat (c.toNat + 32) else c

/-- ASCII uppercasing of one character. -/
def toUpperA (c : Char) : Char := if isLowerA c then Char.ofNat (c.toNat - 32) else c

/-- Modelled from the spec: the word-boundary pass of the case converters
(function addWordBoundariesToNumbers of the strcase dependency, absent from
src/): every leftmost match of letter-digits-optional-letter is replaced by
the same characters with spaces between the three groups, and scanning
resumes after the match.  The Boolean argument is true while inside the
digit run of a match. -/
def awbGo : Bool → List Char → List Char
  | false, [] => []
  | false, c :: rest =>
    if isLetterA c && (match rest with | d :: _ => isDigitA d | [] => false) then
      c :: ' ' :: awbGo true rest
    else c :: awbGo false rest
  | true, [] => [' ']
  | true, c :: rest =>
    if isDigitA c then c :: awbGo true rest
    else ' ' :: c :: awbGo false rest

/-- Model of strings.Trim(s, " "): surrounding spaces removed. -/
def trimSpaces (s : List Char) : List Char :=
  ((s.dropWhile (fun c => c == ' ')).reverse.dropWhile (fun c => c == ' ')).reverse

/-- Modelled from the spec: the delimiting pass of snakeCase (function
ToScreamingDelimited of the strcase dependency with delimiter underscore,
absent from src/): a case change against the next character inserts an
underscore (before an uppercase, after a lowercase) unless at the first
character or right after an underscore; space, underscore and hyphen become
the delimiter; everything else is copied.  prev is the last character
written so far. -/
def tsdGo (prev : Option Char) : List Char → List Char
  | [] => []
  | v :: rest =>
    let nextCaseChanged : Bool :=
      match rest with
      | nx :: _ => (isUpperA v && isLowerA nx) || (isLowerA v && isUpperA nx)
      | [] => false
    let prevOk : Bool := match prev with | none => false | some p => p != '_'
    if prevOk && nextCaseChanged then
      if isUpperA v then '_' :: v :: tsdGo (some v) rest
      else if isLowerA v then v :: '_' :: tsdGo (some '_') rest
      else tsdGo prev rest
    else if v == ' ' || v == '_' || v == '-' then '_' :: tsdGo (some '_') rest
    else v :: tsdGo (some v) rest

/-- Modelled from the spec: the snakeCase helper (strcase.ToSnake, bound to
the name snake at src/main.go line 117): word boundaries around numbers,
trim, delimiting pass, then lowercase everything. -/
def toSnake (s : List Char) : List Char :=
  (tsdGo none (trimSpaces (awbGo false s))).map toLowerA

/-- Modelled from the spec: the shared pass of the camel-casing helpers
(function toCamelInitCase of the strcase dependency, absent from src/):
uppercase letters and digits are copied, a lowercase letter is uppercased
exactly when the previous character was a delimiter (or at the start, for
the initial-uppercase variant), and delimiter characters are dropped. -/
def camelGo : Bool → List Char → List Char
  | _, [] => []
  | capNext, v :: rest =>
    let emitted :=
      (if isUpperA v then [v] else []) ++
        (if isDigitA v then [v] else []) ++
          (if isLowerA v then [if capNext then toUpperA v else v] else [])
    let capNext2 : Bool := v == '_' || v == ' ' || v == '-'
    emitted ++ camelGo capNext2 rest

/-- Modelled from the spec: the camelCase helper (strcase.ToCamel, bound to
the name camel at src/main.go line 115). -/
def toCamel (s : List Char) : List Char := camelGo true (trimSpaces (awbGo false s))

/-- Modelled from the spec: the lowerCamelCase helper (strcase.ToLowerCamel,
bound to the name lowerCamel at src/main.go line 116): the first character
is lowercased first, then the camel pass runs without initial uppercasing. -/
def toLowerCamel (s : List Char) : List Char :=
  match s with
  | [] => []
  | c :: rest =>
    camelGo false (trimSpaces (awbGo false ((if isUpperA c then toLowerA c else c) :: rest)))

example : toCamel "user_id".data = "UserId".data := by decide
example : toLowerCamel "user_id".data = "userId".data := by decide
example : toSnake "UserID".data = "user_id".data := by decide
example : toSnake "JSONData".data = "json_data".data := by decide
example : toSnake "numbers2and55with000".data = "numbers_2_and_55_with_000".data := by decide
example :
    ¬ toSnake (toCamel (toSnake "a1a1aa".data)) = toSnake "a1a1aa".data := by decide

/-! ## Round-trip stability of the case converters on all-letter identifiers -/

theorem toNat_ofNat_ascii (n : Nat) (h : n < 128) : (Char.ofNat n).toNat = n := by
  have hv : n.isValidChar := Or.inl (by omega)
  simp only [Char.ofNat, hv, reduceDIte, Char.ofNatAux, Char.toNat, UInt32.toNat,
    BitVec.toNat_ofNatLt]

theorem char_eq_of_toNat (a b : Char) (h : a.toNat = b.toNat) : a = b :=
  Char.ext (UInt32.ext h)

-- class facts
theorem upper_bounds {v : Char} (h : isUpperA v = true) : 65 ≤ v.toNat ∧ v.toNat ≤ 90 := by
  simpa [isUpperA] using h

theorem lower_bounds {v : Char} (h : isLowerA v = true) : 97 ≤ v.toNat ∧ v.toNat ≤ 122 := by
  simpa [isLowerA] using h

theorem upper_not_lower {v : Char} (h : isUpperA v = true) : isLowerA v = false := by
  have := upper_bounds h
  simp [isLowerA]
  omega

theorem lower_not_upper {v : Char} (h : isLowerA v = true) : isUpperA v = false := by
  have := lower_bounds h
  simp [isUpperA]
  omega

theorem letter_cases {v : Char} (h : isLetterA v = true) :
    isUpperA v = true ∨ isLowerA v = true := by
  simpa [isLetterA, Bool.or_eq_true] using h

theorem toLowerA_toNat {v : Char} (h : isUpperA v = true) :
    (toLowerA v).toNat = v.toNat + 32 := by
  have hb := upper_bounds h
  simp [toLowerA, h, toNat_ofNat_ascii (v.toNat + 32) (by omega)]

theorem toLowerA_lower {v : Char} (h : isUpperA v = true) :
    isLowerA (toLowerA v) = true := by
  have hb := upper_bounds h
  have ht := toLowerA_toNat h
  simp [isLowerA, ht]
  omega

theorem toLowerA_id {v : Char} (h : isUpperA v = false) : toLowerA v = v := by
  simp [toLowerA, h]

theorem toLowerA_letter_lower {v : Char} (h : isLetterA v = true) :
    isLowerA (toLowerA v) = true := by
  rcases letter_cases h with hu | hl
  · exact toLowerA_lower hu
  · rw [toLowerA_id (lower_not_upper hl)]; exact hl

theorem toUpperA_toNat {v : Char} (h : isLowerA v = true) :
    (toUpperA v).toNat = v.toNat - 32 := by
  have hb := lower_bounds h
  simp [toUpperA, h, toNat_ofNat_ascii (v.toNat - 32) (by omega)]

theorem toUpperA_upper {v : Char} (h : isLowerA v = true) :
    isUpperA (toUpperA v) = true := by
  have hb := lower_bounds h
  have ht := toUpperA_toNat h
  simp [isUpperA, ht]
  omega

theorem toUpperA_id {v : Char} (h : isLowerA v = false) : toUpperA v = v := by
  simp [toUpperA, h]

theorem toLowerA_toUpperA {v : Char} (h : isLowerA v = true) :
    toLowerA (toUpperA v) = v := by
  have hb := lower_bounds h
  apply char_eq_of_toNat
  rw [toLowerA_toNat (toUpperA_upper h), toUpperA_toNat h]
  omega

theorem toUpperA_toLowerA {v : Char} (h : isUpperA v = true) :
    toUpperA (toLowerA v) = v := by
  have hb := upper_bounds h
  apply char_eq_of_toNat
  rw [toUpperA_toNat (toLowerA_lower h), toLowerA_toNat h]
  omega

theorem toLowerA_idem {v : Char} (h : isLetterA v = true) :
    toLowerA (toLowerA v) = toLowerA v :=
  toLowerA_id (lower_not_upper (toLowerA_letter_lower h))

-- non-membership of special chars
theorem lower_ne_underscore {v : Char} (h : isLowerA v = true) : (v == '_') = false := by
  have hb := lower_bounds h
  simp only [beq_eq_false_iff_ne, ne_eq]
  intro he
  subst he
  simp at hb

theorem upper_ne_underscore {v : Char} (h : isUpperA v = true) : (v == '_') = false := by
  have hb := upper_bounds h
  simp only [beq_eq_false_iff_ne, ne_eq]
  intro he
  subst he
  simp at hb

theorem letter_not_delim {v : Char} (h : isLetterA v = true) :
    (v == ' ' || v == '_' || v == '-') = false := by
  have hb : 65 ≤ v.toNat ∧ v.toNat ≤ 90 ∨ 97 ≤ v.toNat ∧ v.toNat ≤ 122 := by
    rcases letter_cases h with hu | hl
    · exact Or.inl (upper_bounds hu)
    · exact Or.inr (lower_bounds hl)
  simp only [Bool.or_eq_false_iff, beq_eq_false_iff_ne, ne_eq]
  refine ⟨⟨fun he => ?_, fun he => ?_⟩, fun he => ?_⟩ <;> (subst he; simp at hb)

theorem letter_not_digit {v : Char} (h : isLetterA v = true) : isDigitA v = false := by
  have hb : 65 ≤ v.toNat ∧ v.toNat ≤ 90 ∨ 97 ≤ v.toNat ∧ v.toNat ≤ 122 := by
    rcases letter_cases h with hu | hl
    · exact Or.inl (upper_bounds hu)
    · exact Or.inr (lower_bounds hl)
  simp [isDigitA]
  omega

theorem letter_not_space {v : Char} (h : isLetterA v = true) : (v == ' ') = false := by
  have := letter_not_delim h
  simp only [Bool.or_eq_false_iff] at this
  exact this.1.1

/-- Fused lowercased delimiting pass: snakeL ok x = map toLowerA (tsdGo prev x)
with ok the prevOk of prev. -/
def snakeL (ok : Bool) : List Char → List Char
  | [] => []
  | v :: rest =>
    let chg : Bool :=
      match rest with
      | nx :: _ => (isUpperA v && isLowerA nx) || (isLowerA v && isUpperA nx)
      | [] => false
    if ok && chg then
      if isUpperA v then '_' :: toLowerA v :: snakeL true rest
      else if isLowerA v then toLowerA v :: '_' :: snakeL false rest
      else snakeL ok rest
    else if v == ' ' || v == '_' || v == '-' then '_' :: snakeL false rest
    else toLowerA v :: snakeL true rest

/-- The camel pass restricted to streams of lowercase letters and underscores. -/
def camelL : Bool → List Char → List Char
  | _, [] => []
  | cap, v :: rest =>
    if v == '_' then camelL true rest
    else (if cap then toUpperA v else v) :: camelL false rest

def prevOkB : Option Char → Bool
  | none => false
  | some p => p != '_'

theorem prevOkB_underscore : prevOkB (some '_') = false := by decide

theorem tsdGo_nil (prev : Option Char) : tsdGo prev [] = [] := rfl

theorem tsdGo_single (prev : Option Char) (v : Char) :
    tsdGo prev [v] =
      if (v == ' ' || v == '_' || v == '-') = true then ['_'] else [v] := by
  cases prev <;> simp [tsdGo]

theorem tsdGo_cons2 (prev : Option Char) (v nx : Char) (rest2 : List Char) :
    tsdGo prev (v :: nx :: rest2) =
      if (prevOkB prev && ((isUpperA v && isLowerA nx) || (isLowerA v && isUpperA nx)))
          = true then
        (if isUpperA v = true then '_' :: v :: tsdGo (some v) (nx :: rest2)
          else if isLowerA v = true then v :: '_' :: tsdGo (some '_') (nx :: rest2)
          else tsdGo prev (nx :: rest2))
      else if (v == ' ' || v == '_' || v == '-') = true then
        '_' :: tsdGo (some '_') (nx :: rest2)
      else v :: tsdGo (some v) (nx :: rest2) := by
  cases prev <;> rfl

theorem snakeL_nil (ok : Bool) : snakeL ok [] = [] := rfl

theorem snakeL_single (ok : Bool) (v : Char) :
    snakeL ok [v] =
      if (v == ' ' || v == '_' || v == '-') = true then ['_'] else [toLowerA v] := by
  simp [snakeL]

theorem snakeL_cons2 (ok : Bool) (v nx : Char) (rest2 : List Char) :
    snakeL ok (v :: nx :: rest2) =
      if (ok && ((isUpperA v && isLowerA nx) || (isLowerA v && isUpperA nx))) = true then
        (if isUpperA v = true then '_' :: toLowerA v :: snakeL true (nx :: rest2)
          else if isLowerA v = true then toLowerA v :: '_' :: snakeL false (nx :: rest2)
          else snakeL ok (nx :: rest2))
      else if (v == ' ' || v == '_' || v == '-') = true then '_' :: snakeL false (nx :: rest2)
      else toLowerA v :: snakeL true (nx :: rest2) := rfl

theorem camelL_nil (cap : Bool) : camelL cap [] = [] := rfl

theorem camelL_cons (cap : Bool) (v : Char) (rest : List Char) :
    camelL cap (v :: rest) =
      if (v == '_') = true then camelL true rest
      else (if cap then toUpperA v else v) :: camelL false rest := rfl

theorem underscore_delim : (('_' : Char) == ' ' || '_' == '_' || '_' == '-') = true := by decide

theorem tsd_eq_snakeL (x : List Char) : ∀ prev,
    (tsdGo prev x).map toLowerA = snakeL (prevOkB prev) x := by
  induction x with
  | nil => intro prev; rfl
  | cons v rest ih =>
    intro prev
    cases rest with
    | nil =>
      rw [tsdGo_single, snakeL_single]
      by_cases hd : (v == ' ' || v == '_' || v == '-') = true
      · rw [if_pos hd, if_pos hd]
        rfl
      · rw [if_neg hd, if_neg hd]
        rfl
    | cons nx rest2 =>
      rw [tsdGo_cons2, snakeL_cons2]
      by_cases hok : (prevOkB prev &&
          ((isUpperA v && isLowerA nx) || (isLowerA v && isUpperA nx))) = true
      · rw [if_pos hok, if_pos hok]
        by_cases hu : isUpperA v = true
        · rw [if_pos hu, if_pos hu, List.map_cons, List.map_cons]
          have h1 := ih (some v)
          rw [show prevOkB (some v) = true by
            simp only [prevOkB, bne_iff_ne, ne_eq]
            intro he
            subst he
            exact absurd hu (by decide)] at h1
          rw [h1]
          rw [show toLowerA '_' = '_' from by decide]
        · rw [if_neg hu, if_neg hu]
          by_cases hl : isLowerA v = true
          · rw [if_pos hl, if_pos hl, List.map_cons, List.map_cons]
            have h1 := ih (some '_')
            rw [prevOkB_underscore] at h1
            rw [h1, toLowerA_id (by rwa [Bool.not_eq_true] at hu)]
            rfl
          · rw [if_neg hl, if_neg hl]
            exact ih prev
      · rw [if_neg hok, if_neg hok]
        by_cases hd : (v == ' ' || v == '_' || v == '-') = true
        · rw [if_pos hd, if_pos hd, List.map_cons]
          have h1 := ih (some '_')
          rw [prevOkB_underscore] at h1
          rw [h1]
          rfl
        · rw [if_neg hd, if_neg hd, List.map_cons]
          have h1 := ih (some v)
          rw [show prevOkB (some v) = true by
            simp only [Bool.or_eq_true, not_or, beq_iff_eq] at hd
            simp only [prevOkB, bne_iff_ne, ne_eq]
            exact fun he => hd.1.2 he] at h1
          rw [h1]

theorem dropWhile_eq_self {p : Char → Bool} {x : List Char} (h : ∀ c ∈ x, p c = false) :
    x.dropWhile p = x := by
  cases x with
  | nil => rfl
  | cons c rest => simp [List.dropWhile, h c (List.mem_cons_self c rest)]

theorem trimSpaces_id {x : List Char} (h : ∀ c ∈ x, (c == ' ') = false) :
    trimSpaces x = x := by
  unfold trimSpaces
  rw [dropWhile_eq_self h,
    dropWhile_eq_self (fun c hc => h c (List.mem_reverse.mp hc)), List.reverse_reverse]

theorem awb_id : ∀ x : List Char, (∀ c ∈ x, isDigitA c = false) → awbGo false x = x := by
  intro x
  induction x with
  | nil => intro _; rfl
  | cons c rest ih =>
    intro h
    cases rest with
    | nil =>
      show (if (isLetterA c && false) = true then _ else _) = _
      rw [Bool.and_false]
      rfl
    | cons d r2 =>
      have hd : isDigitA d = false := h d (by simp)
      show (if (isLetterA c && isDigitA d) = true then _ else _) = _
      rw [hd, Bool.and_false]
      show c :: awbGo false (d :: r2) = _
      rw [ih (fun c2 hc2 => h c2 (List.mem_cons_of_mem c hc2))]

theorem camel_eq_camelL : ∀ (y : List Char) (cap : Bool),
    (∀ c ∈ y, isLowerA c = true ∨ c = '_') → camelGo cap y = camelL cap y := by
  intro y
  induction y with
  | nil => intro _ _; rfl
  | cons v rest ih =>
    intro cap h
    have hrest : ∀ c ∈ rest, isLowerA c = true ∨ c = '_' :=
      fun c hc => h c (List.mem_cons_of_mem v hc)
    rcases h v (List.mem_cons_self v rest) with hl | he
    · have hnu : isUpperA v = false := lower_not_upper hl
      have hnd : isDigitA v = false := letter_not_digit (by simp [isLetterA, hl])
      have hne : (v == '_') = false := lower_ne_underscore hl
      have hsp : (v == ' ') = false := letter_not_space (by simp [isLetterA, hl])
      have hhy : (v == '-') = false := by
        have := letter_not_delim (v := v) (by simp [isLetterA, hl])
        simp only [Bool.or_eq_false_iff] at this
        exact this.2
      have h1 : camelGo cap (v :: rest) =
          (if cap then toUpperA v else v) :: camelGo false rest := by
        show ((if isUpperA v = true then [v] else []) ++
            (if isDigitA v = true then [v] else []) ++
              (if isLowerA v = true then [if cap then toUpperA v else v] else [])) ++
            camelGo (v == '_' || v == ' ' || v == '-') rest = _
        simp [hnu, hnd, hl, hne, hsp, hhy]
      rw [h1, camelL_cons, hne]
      simp only [Bool.false_eq_true, if_false]
      exact congrArg _ (ih false hrest)
    · subst he
      have h1 : camelGo cap ('_' :: rest) = camelGo true rest := by
        show ((if isUpperA '_' = true then ['_'] else []) ++
            (if isDigitA '_' = true then ['_'] else []) ++
              (if isLowerA '_' = true then [if cap then toUpperA '_' else '_'] else [])) ++
            camelGo ('_' == '_' || '_' == ' ' || '_' == '-') rest = _
        simp [show isUpperA '_' = false from by decide, show isDigitA '_' = false from by decide,
          show isLowerA '_' = false from by decide]
      rw [h1, camelL_cons, if_pos (by decide)]
      exact ih true hrest

theorem snakeL_chars : ∀ (x : List Char), (∀ c ∈ x, isLetterA c = true) →
    ∀ ok, ∀ c ∈ snakeL ok x, isLowerA c = true ∨ c = '_' := by
  intro x
  induction x with
  | nil => intro _ ok c hc; simp [snakeL_nil] at hc
  | cons v rest ih =>
    intro h ok c hc
    have hv : isLetterA v = true := h v (List.mem_cons_self v rest)
    have hrest : ∀ c ∈ rest, isLetterA c = true :=
      fun c hc => h c (List.mem_cons_of_mem v hc)
    have hlow : isLowerA (toLowerA v) = true := toLowerA_letter_lower hv
    cases rest with
    | nil =>
      rw [snakeL_single, if_neg (by rw [letter_not_delim hv]; exact Bool.false_ne_true)] at hc
      simp only [List.mem_singleton] at hc
      subst hc
      exact Or.inl hlow
    | cons nx rest2 =>
      rw [snakeL_cons2] at hc
      by_cases hok : (ok && ((isUpperA v && isLowerA nx) || (isLowerA v && isUpperA nx)))
          = true
      · rw [if_pos hok] at hc
        by_cases hu : isUpperA v = true
        · rw [if_pos hu] at hc
          simp only [List.mem_cons] at hc
          rcases hc with hc | hc | hc
          · exact Or.inr hc
          · exact Or.inl (hc ▸ hlow)
          · exact ih hrest true c hc
        · rw [if_neg hu] at hc
          by_cases hl : isLowerA v = true
          · rw [if_pos hl] at hc
            simp only [List.mem_cons] at hc
            rcases hc with hc | hc | hc
            · exact Or.inl (hc ▸ hlow)
            · exact Or.inr hc
            · exact ih hrest false c hc
          · rw [if_neg hl] at hc
            exact ih hrest ok c hc
      · rw [if_neg hok,
          if_neg (by rw [letter_not_delim hv]; exact Bool.false_ne_true)] at hc
        simp only [List.mem_cons] at hc
        rcases hc with hc | hc
        · exact Or.inl (hc ▸ hlow)
        · exact ih hrest true c hc

theorem camelL_chars : ∀ (y : List Char), (∀ c ∈ y, isLowerA c = true ∨ c = '_') →
    ∀ cap, ∀ c ∈ camelL cap y, isLetterA c = true := by
  intro y
  induction y with
  | nil => intro _ cap c hc; simp [camelL_nil] at hc
  | cons v rest ih =>
    intro h cap c hc
    have hrest : ∀ c ∈ rest, isLowerA c = true ∨ c = '_' :=
      fun c hc => h c (List.mem_cons_of_mem v hc)
    rcases h v (List.mem_cons_self v rest) with hl | he
    · rw [camelL_cons, lower_ne_underscore hl] at hc
      simp only [Bool.false_eq_true, if_false, List.mem_cons] at hc
      rcases hc with hc | hc
      · subst hc
        cases cap with
        | true => simp [isLetterA, toUpperA_upper hl]
        | false => simp [isLetterA, hl]
      · exact ih hrest false c hc
    · subst he
      rw [camelL_cons, if_pos (by decide)] at hc
      exact ih hrest true c hc

theorem snakeL_false_cons (v : Char) (rest : List Char)
    (hd : (v == ' ' || v == '_' || v == '-') = false) :
    snakeL false (v :: rest) = toLowerA v :: snakeL true rest := by
  cases rest with
  | nil =>
    rw [snakeL_single, if_neg (by rw [hd]; exact Bool.false_ne_true)]
    rfl
  | cons nx r2 =>
    rw [snakeL_cons2, if_neg (by rw [Bool.false_and]; exact Bool.false_ne_true),
      if_neg (by rw [hd]; exact Bool.false_ne_true)]

theorem camelL_cons_letter {v : Char} (cap : Bool) (rest : List Char)
    (h : (v == '_') = false) :
    camelL cap (v :: rest) = (if cap then toUpperA v else v) :: camelL false rest := by
  rw [camelL_cons, if_neg (by rw [h]; exact Bool.false_ne_true)]

theorem camelL_cons_underscore (cap : Bool) (rest : List Char) :
    camelL cap ('_' :: rest) = camelL true rest := by
  rw [camelL_cons, if_pos (by decide)]

theorem snakeL_true_head_lower {next : Char} (hn : isLowerA next = true) (rest2 : List Char) :
    ∃ s, snakeL true (next :: rest2) = next :: s := by
  have hnu : isUpperA next = false := lower_not_upper hn
  have hid : toLowerA next = next := toLowerA_id hnu
  have hd : (next == ' ' || next == '_' || next == '-') = false :=
    letter_not_delim (by simp [isLetterA, hn])
  cases rest2 with
  | nil =>
    exact ⟨[], by rw [snakeL_single, if_neg (by rw [hd]; exact Bool.false_ne_true), hid]⟩
  | cons h2 r2 =>
    by_cases hh : isUpperA h2 = true
    · refine ⟨'_' :: snakeL false (h2 :: r2), ?_⟩
      rw [snakeL_cons2,
        if_pos (by rw [hnu, hn, hh]; rfl),
        if_neg (by rw [hnu]; exact Bool.false_ne_true),
        if_pos hn, hid]
    · have hh2 : isUpperA h2 = false := by rwa [Bool.not_eq_true] at hh
      refine ⟨snakeL true (h2 :: r2), ?_⟩
      rw [snakeL_cons2,
        if_neg (by rw [hnu, hn, hh2]; simp),
        if_neg (by rw [hd]; exact Bool.false_ne_true), hid]

theorem camelL_false_letter {v : Char} (rest : List Char) (h : (v == '_') = false) :
    camelL false (v :: rest) = v :: camelL false rest := by
  rw [camelL_cons, if_neg (by rw [h]; exact Bool.false_ne_true)]
  rfl

theorem camelL_true_letter {v : Char} (rest : List Char) (h : (v == '_') = false) :
    camelL true (v :: rest) = toUpperA v :: camelL false rest := by
  rw [camelL_cons, if_neg (by rw [h]; exact Bool.false_ne_true)]
  rfl

theorem snake_camel_main : ∀ x : List Char, (∀ c ∈ x, isLetterA c = true) →
    (snakeL false (camelL true (snakeL false x)) = snakeL false x)
    ∧ (snakeL true (camelL false (snakeL true x)) = snakeL true x)
    ∧ (∀ t, snakeL true x = '_' :: t → snakeL false (camelL true t) = t) := by
  intro x
  induction x with
  | nil =>
    intro _
    refine ⟨rfl, rfl, fun t ht => ?_⟩
    simp [snakeL_nil] at ht
  | cons v rest ih =>
    intro h
    have hv : isLetterA v = true := h v (List.mem_cons_self v rest)
    have hrest : ∀ c ∈ rest, isLetterA c = true :=
      fun c hc => h c (List.mem_cons_of_mem v hc)
    obtain ⟨ihA0, ihA1, ihB⟩ := ih hrest
    have hvd : (v == ' ' || v == '_' || v == '-') = false := letter_not_delim hv
    have hlv : isLowerA (toLowerA v) = true := toLowerA_letter_lower hv
    have hlvne : (toLowerA v == '_') = false := lower_ne_underscore hlv
    have hlvd : (toLowerA v == ' ' || toLowerA v == '_' || toLowerA v == '-') = false :=
      letter_not_delim (by simp [isLetterA, hlv])
    have hlvnu : isUpperA (toLowerA v) = false := lower_not_upper hlv
    have hlvne2 : toLowerA v ≠ '_' := by simpa using hlvne
    have modeA0 :
        snakeL false (camelL true (snakeL false (v :: rest))) = snakeL false (v :: rest) := by
      rw [snakeL_false_cons v rest hvd, camelL_true_letter _ hlvne]
      have hC : isUpperA (toUpperA (toLowerA v)) = true := toUpperA_upper hlv
      have hCd : (toUpperA (toLowerA v) == ' ' || toUpperA (toLowerA v) == '_'
          || toUpperA (toLowerA v) == '-') = false :=
        letter_not_delim (by simp [isLetterA, hC])
      rw [snakeL_false_cons _ _ hCd, ihA1, toLowerA_toUpperA hlv]
    have modeB : ∀ t, snakeL true (v :: rest) = '_' :: t →
        snakeL false (camelL true t) = t := by
      intro t ht
      cases rest with
      | nil =>
        rw [snakeL_single, if_neg (by rw [hvd]; exact Bool.false_ne_true)] at ht
        simp only [List.cons.injEq] at ht
        exact absurd ht.1 hlvne2
      | cons next rest2 =>
        have hnext : isLetterA next = true := hrest next (List.mem_cons_self next rest2)
        rcases letter_cases hv with hvU | hvL
        · rcases letter_cases hnext with hnU | hnL
          · rw [snakeL_cons2,
              if_neg (by rw [upper_not_lower hnU, upper_not_lower hvU]; simp),
              if_neg (by rw [hvd]; exact Bool.false_ne_true)] at ht
            simp only [List.cons.injEq] at ht
            exact absurd ht.1 hlvne2
          · rw [snakeL_cons2,
              if_pos (by rw [hvU, hnL, upper_not_lower hvU]; simp), if_pos hvU] at ht
            injection ht with _ ht2
            subst ht2
            rw [camelL_true_letter _ hlvne, toUpperA_toLowerA hvU,
              snakeL_false_cons _ _ hvd, ihA1]
        · rcases letter_cases hnext with hnU | hnL
          · rw [snakeL_cons2,
              if_pos (by rw [hvL, hnU, lower_not_upper hvL, upper_not_lower hnU]; simp),
              if_neg (by rw [lower_not_upper hvL]; exact Bool.false_ne_true),
              if_pos hvL] at ht
            simp only [List.cons.injEq] at ht
            exact absurd ht.1 hlvne2
          · rw [snakeL_cons2,
              if_neg (by rw [lower_not_upper hvL, lower_not_upper hnL]; simp),
              if_neg (by rw [hvd]; exact Bool.false_ne_true)] at ht
            simp only [List.cons.injEq] at ht
            exact absurd ht.1 hlvne2
    have modeA1 :
        snakeL true (camelL false (snakeL true (v :: rest))) = snakeL true (v :: rest) := by
      cases rest with
      | nil =>
        rw [snakeL_single, if_neg (by rw [hvd]; exact Bool.false_ne_true),
          camelL_false_letter _ hlvne,
          camelL_nil,
          snakeL_single, if_neg (by rw [hlvd]; exact Bool.false_ne_true),
          toLowerA_id hlvnu]
      | cons next rest2 =>
        have hnext : isLetterA next = true := hrest next (List.mem_cons_self next rest2)
        have hnd : (next == ' ' || next == '_' || next == '-') = false :=
          letter_not_delim hnext
        have hln : isLowerA (toLowerA next) = true := toLowerA_letter_lower hnext
        have hlnne : (toLowerA next == '_') = false := lower_ne_underscore hln
        have hlnnu : isUpperA (toLowerA next) = false := lower_not_upper hln
        have hlnd : (toLowerA next == ' ' || toLowerA next == '_' || toLowerA next == '-')
            = false := letter_not_delim (by simp [isLetterA, hln])
        rcases letter_cases hv with hvU | hvL
        · rcases letter_cases hnext with hnU | hnL
          · -- v upper, next upper
            have e1 : snakeL true (v :: next :: rest2)
                = toLowerA v :: snakeL true (next :: rest2) := by
              rw [snakeL_cons2,
                if_neg (by rw [upper_not_lower hnU, upper_not_lower hvU]; simp),
                if_neg (by rw [hvd]; exact Bool.false_ne_true)]
            cases rest2 with
            | nil =>
              have e2 : snakeL true [next] = [toLowerA next] := by
                rw [snakeL_single, if_neg (by rw [hnd]; exact Bool.false_ne_true)]
              rw [e1, e2, camelL_false_letter _ hlvne, camelL_false_letter _ hlnne,
                camelL_nil,
                snakeL_cons2,
                if_neg (by rw [hlvnu, hlnnu, hlv]; simp),
                if_neg (by rw [hlvd]; exact Bool.false_ne_true),
                toLowerA_id hlvnu,
                snakeL_single, if_neg (by rw [hlnd]; exact Bool.false_ne_true),
                toLowerA_id hlnnu]
            | cons h2 r2 =>
              have hh2 : isLetterA h2 = true :=
                hrest h2 (List.mem_cons_of_mem next (List.mem_cons_self h2 r2))
              rcases letter_cases hh2 with h2U | h2L
              · -- plain continuation
                have e2 : snakeL true (next :: h2 :: r2)
                    = toLowerA next :: snakeL true (h2 :: r2) := by
                  rw [snakeL_cons2,
                    if_neg (by rw [upper_not_lower hnU, upper_not_lower h2U]; simp),
                    if_neg (by rw [hnd]; exact Bool.false_ne_true)]
                rw [e1, camelL_false_letter _ hlvne, e2, camelL_false_letter _ hlnne]
                rw [snakeL_cons2,
                  if_neg (by rw [hlvnu, hlnnu, hlv]; simp),
                  if_neg (by rw [hlvd]; exact Bool.false_ne_true),
                  toLowerA_id hlvnu]
                rw [← camelL_false_letter _ hlnne, ← e2, ihA1, e2]
              · -- underscore continuation: use ihB
                have e2 : snakeL true (next :: h2 :: r2)
                    = '_' :: toLowerA next :: snakeL true (h2 :: r2) := by
                  rw [snakeL_cons2,
                    if_pos (by rw [hnU, h2L, upper_not_lower hnU]; simp), if_pos hnU]
                have hcm : camelL true (toLowerA next :: snakeL true (h2 :: r2))
                    = next :: camelL false (snakeL true (h2 :: r2)) := by
                  rw [camelL_true_letter _ hlnne, toUpperA_toLowerA hnU]
                rw [e1, e2, camelL_false_letter _ hlvne, camelL_cons_underscore, hcm]
                rw [snakeL_cons2,
                  if_pos (by rw [hlvnu, hlv, hnU, upper_not_lower hnU]; simp),
                  if_neg (by rw [hlvnu]; exact Bool.false_ne_true),
                  if_pos hlv, toLowerA_id hlvnu]
                rw [← hcm]
                rw [ihB _ e2]
          · -- v upper, next lower: leading underscore chunk
            have hnne : (next == '_') = false := lower_ne_underscore hnL
            have e1 : snakeL true (v :: next :: rest2)
                = '_' :: toLowerA v :: snakeL true (next :: rest2) := by
              rw [snakeL_cons2,
                if_pos (by rw [hvU, hnL, upper_not_lower hvU]; simp), if_pos hvU]
            obtain ⟨s, hs⟩ := snakeL_true_head_lower hnL rest2
            rw [e1, camelL_cons_underscore, camelL_true_letter _ hlvne,
              toUpperA_toLowerA hvU, hs, camelL_false_letter _ hnne]
            rw [snakeL_cons2,
              if_pos (by rw [hvU, hnL, upper_not_lower hvU]; simp), if_pos hvU]
            rw [← camelL_false_letter _ hnne, ← hs, ihA1]
        · -- v lower
          rcases letter_cases hnext with hnU | hnL
          · -- v lower, next upper: trailing underscore chunk
            have e1 : snakeL true (v :: next :: rest2)
                = toLowerA v :: '_' :: snakeL false (next :: rest2) := by
              rw [snakeL_cons2,
                if_pos (by rw [hvL, hnU, lower_not_upper hvL, upper_not_lower hnU]; simp),
                if_neg (by rw [lower_not_upper hvL]; exact Bool.false_ne_true),
                if_pos hvL]
            have e2 : snakeL false (next :: rest2)
                = toLowerA next :: snakeL true rest2 := snakeL_false_cons next rest2 hnd
            have hcm : camelL true (snakeL false (next :: rest2))
                = next :: camelL false (snakeL true rest2) := by
              rw [e2, camelL_true_letter _ hlnne, toUpperA_toLowerA hnU]
            rw [e1, camelL_false_letter _ hlvne, camelL_cons_underscore, hcm]
            rw [snakeL_cons2,
              if_pos (by rw [hlvnu, hlv, hnU, upper_not_lower hnU]; simp),
              if_neg (by rw [hlvnu]; exact Bool.false_ne_true),
              if_pos hlv, toLowerA_id hlvnu]
            rw [← hcm, ihA0]
          · -- v lower, next lower: plain
            have hnne : (next == '_') = false := lower_ne_underscore hnL
            have e1 : snakeL true (v :: next :: rest2)
                = toLowerA v :: snakeL true (next :: rest2) := by
              rw [snakeL_cons2,
                if_neg (by rw [lower_not_upper hvL, lower_not_upper hnL]; simp),
                if_neg (by rw [hvd]; exact Bool.false_ne_true)]
            obtain ⟨s, hs⟩ := snakeL_true_head_lower hnL rest2
            rw [e1, camelL_false_letter _ hlvne, hs, camelL_false_letter _ hnne]
            rw [snakeL_cons2,
              if_neg (by rw [hlvnu, lower_not_upper hnL]; simp),
              if_neg (by rw [hlvd]; exact Bool.false_ne_true),
              toLowerA_id hlvnu]
            rw [← camelL_false_letter _ hnne, ← hs, ihA1]
    exact ⟨modeA0, modeA1, modeB⟩

theorem toSnake_eq_snakeL (z : List Char) (hz : ∀ c ∈ z, isLetterA c = true) :
    toSnake z = snakeL false z := by
  unfold toSnake
  rw [awb_id z (fun c hc => letter_not_digit (hz c hc)),
    trimSpaces_id (fun c hc => letter_not_space (hz c hc))]
  exact tsd_eq_snakeL z none

theorem snake_roundtrip_letters (x : List Char) (h : ∀ c ∈ x, isLetterA c = true) :
    toSnake (toCamel (toSnake x)) = toSnake x := by
  have hy : ∀ c ∈ snakeL false x, isLowerA c = true ∨ c = '_' := snakeL_chars x h false
  have hyNoDigit : ∀ c ∈ snakeL false x, isDigitA c = false := by
    intro c hc
    rcases hy c hc with hl | he
    · exact letter_not_digit (by simp [isLetterA, hl])
    · subst he; decide
  have hyNoSpace : ∀ c ∈ snakeL false x, (c == ' ') = false := by
    intro c hc
    rcases hy c hc with hl | he
    · exact letter_not_space (by simp [isLetterA, hl])
    · subst he; decide
  have h2 : toCamel (snakeL false x) = camelL true (snakeL false x) := by
    unfold toCamel
    rw [awb_id _ hyNoDigit, trimSpaces_id hyNoSpace]
    exact camel_eq_camelL _ true hy
  have hzl : ∀ c ∈ camelL true (snakeL false x), isLetterA c = true := camelL_chars _ hy true
  rw [toSnake_eq_snakeL x h, h2, toSnake_eq_snakeL _ hzl]
  exact (snake_camel_main x h).1

/-! ## Claim C8 -/

/-- Claim C8 counterexample: the round-trip equation
snakeCase(camelCase(snakeCase(x))) = snakeCase(x) fails on the alphanumeric
identifier a1a1aa: snakeCase gives a_1_a1aa, camelCase of that gives
A1A1Aa, and snakeCase again gives a_1_a1_aa, which differs -- the word
boundary pass only separates a digit run from a directly preceding letter,
so the letter it consumes after a run can keep its own following digits
attached, and the second pass splits the re-capitalized word differently. -/
theorem c8_counterexample :
    ¬ toSnake (toCamel (toSnake "a1a1aa".data)) = toSnake "a1a1aa".data := by decide

/-- Claim C8 as amended: the concrete equations hold -- camelCase maps
user_id to UserId, lowerCamelCase maps user_id to userId, snakeCase maps
UserID to user_id -- and the round-trip equation
snakeCase(camelCase(snakeCase(x))) = snakeCase(x) holds for every
identifier consisting solely of ASCII letters. -/
theorem c8_caseConversion :
    toCamel "user_id".data = "UserId".data
    ∧ toLowerCamel "user_id".data = "userId".data
    ∧ toSnake "UserID".data = "user_id".data
    ∧ ∀ x : List Char, (∀ c ∈ x, isLetterA c = true) →
        toSnake (toCamel (toSnake x)) = toSnake x :=
  ⟨by decide, by decide, by decide, fun x h => snake_roundtrip_letters x h⟩

/-- Witness for C8: the round trip applied at the all-letter identifier
UserID. -/
theorem c8_caseConversion_witness :
    toSnake (toCamel (toSnake "UserID".data)) = toSnake "UserID".data :=
  c8_caseConversion.2.2.2 "UserID".data (by decide)
